import Mathlib

/-!
Verification of the uniform-buffer layout engine of `src/components/ShaderParams.tsx`:
the pure functions `calculateUniformLayout` and `writeParamsToBuffer`.

Embedding notes.
* A `ShaderParam` carries the three fields the two functions read: `id`, the
  runtime type tag (a string, since the variants are distinguished at runtime
  by this tag), and `value`.  UI metadata fields (`label`, `min`, `max`,
  `step`) are never read by the layout or serialization code and are omitted.
* A parameter value is either a scalar or a triple of components; rationals
  stand in for the host numbers (the two functions only copy values, they do
  no arithmetic on them).
* The offset record built by `calculateUniformLayout` is embedded as a
  function `String → Option Nat`, updated left to right, so a repeated key
  keeps the last binding exactly as the host record assignment does.
* The destination `Float32Array` is embedded as a `List ℚ` addressed in
  4-byte words.  `List.set` is a no-op out of bounds, matching the host
  typed-array semantics of silently dropping out-of-range indexed stores.
  A store at a fractional index (byte offset not divisible by 4) is likewise
  dropped by the host typed array, hence the divisibility guard in
  `writeStep`; a lookup of an id absent from the offset record yields an
  undefined index and the store is dropped as well.
-/

namespace Heroyk

/-- A parameter value: a scalar (`float`) or a three-component vector
(`color` / `vec3`). -/
inductive ParamValue where
  | scalar : ℚ → ParamValue
  | triple : ℚ → ℚ → ℚ → ParamValue
  deriving DecidableEq

/-- The fields of a shader parameter descriptor read by the layout and
serialization functions. -/
structure ShaderParam where
  id : String
  type : String
  value : ParamValue
  deriving DecidableEq

/-- The result of `calculateUniformLayout`: total padded byte size and the
byte offset recorded for each parameter id. -/
structure UniformLayout where
  size : Nat
  offsetMap : String → Option Nat

/-- One iteration of the `params.forEach` loop in `calculateUniformLayout`:
alignment and size are 16 for `color`/`vec3` and 4 otherwise, the cursor is
advanced by `(alignment - cursor % alignment) % alignment` bytes of padding,
the post-padding cursor is recorded for the parameter's id, and the cursor
advances by the size. -/
def layoutStep (acc : Nat × (String → Option Nat)) (param : ShaderParam) :
    Nat × (String → Option Nat) :=
  let alignment : Nat := if param.type = "color" ∨ param.type = "vec3" then 16 else 4
  let size : Nat := if param.type = "color" ∨ param.type = "vec3" then 16 else 4
  let padding := (alignment - acc.1 % alignment) % alignment
  let offset := acc.1 + padding
  (offset + size, fun k => if k = param.id then some offset else acc.2 k)

/-- `calculateUniformLayout` from `ShaderParams.tsx`: scan the parameters
left to right from `startOffset`, then pad the final cursor up to a multiple
of 16. -/
def calculateUniformLayout (params : List ShaderParam) (startOffset : Nat) :
    UniformLayout :=
  let scanned := params.foldl layoutStep (startOffset, fun _ => none)
  let totalPadding := (16 - scanned.1 % 16) % 16
  { size := scanned.1 + totalPadding, offsetMap := scanned.2 }

/-- One iteration of the `params.forEach` loop in `writeParamsToBuffer`:
look the parameter's byte offset up in the layout, divide by 4 to get the
word index, and store the scalar (one word) or the three vector components
(three consecutive words).  Stores with an undefined or fractional index,
and stores of a parameter whose type tag is none of the three known tags,
write nothing. -/
def writeStep (layout : UniformLayout) (data : List ℚ) (param : ShaderParam) :
    List ℚ :=
  match layout.offsetMap param.id with
  | none => data
  | some offset =>
    if 4 ∣ offset then
      let floatOffset := offset / 4
      if param.type = "float" then
        match param.value with
        | .scalar v => data.set floatOffset v
        | _ => data
      else if param.type = "color" ∨ param.type = "vec3" then
        match param.value with
        | .triple a b c =>
            ((data.set floatOffset a).set (floatOffset + 1) b).set (floatOffset + 2) c
        | _ => data
      else data
    else data

/-- `writeParamsToBuffer` from `ShaderParams.tsx`: run `writeStep` over the
parameters in list order. -/
def writeParamsToBuffer (data : List ℚ) (params : List ShaderParam)
    (layout : UniformLayout) : List ℚ :=
  params.foldl (writeStep layout) data

/-! ### Derived reading of the scan -/

/-- The alignment `calculateUniformLayout` uses for a parameter. -/
def paramAlignment (p : ShaderParam) : Nat :=
  if p.type = "color" ∨ p.type = "vec3" then 16 else 4

/-- The byte size `calculateUniformLayout` reserves for a parameter. -/
def paramSize (p : ShaderParam) : Nat :=
  if p.type = "color" ∨ p.type = "vec3" then 16 else 4

/-- The cursor after inserting the padding the scan inserts: `c` advanced by
`(a - c % a) % a`. -/
def alignTo (a c : Nat) : Nat := c + (a - c % a) % a

/-- The per-occurrence byte offsets the scan records, in list order. -/
def offsetsOf : List ShaderParam → Nat → List Nat
  | [], _ => []
  | p :: rest, c =>
      alignTo (paramAlignment p) c ::
        offsetsOf rest (alignTo (paramAlignment p) c + paramSize p)

/-- The cursor after the scan has processed every parameter. -/
def finalCursor : List ShaderParam → Nat → Nat
  | [], c => c
  | p :: rest, c => finalCursor rest (alignTo (paramAlignment p) c + paramSize p)

/-- The offset the scan records for the LAST occurrence of an id, if any. -/
def lastOffsetOf : List ShaderParam → Nat → String → Option Nat
  | [], _, _ => none
  | p :: rest, c, k =>
      match lastOffsetOf rest (alignTo (paramAlignment p) c + paramSize p) k with
      | some o => some o
      | none => if p.id = k then some (alignTo (paramAlignment p) c) else none

/-- `off` is the smallest multiple of `a` that is at least `x`. -/
def isLeastMultGE (a x off : Nat) : Prop :=
  a ∣ off ∧ x ≤ off ∧ ∀ y, a ∣ y → x ≤ y → off ≤ y

/-- The left-to-right scan property: each offset in the list is the smallest
multiple of its parameter's alignment at least the running cursor, and the
cursor then advances past the parameter's size. -/
def scanSpec : List ShaderParam → Nat → List Nat → Prop
  | [], _, os => os = []
  | p :: rest, c, os =>
      ∃ o os2, os = o :: os2 ∧ isLeastMultGE (paramAlignment p) c o ∧
        scanSpec rest (o + paramSize p) os2

/-- Whether `writeStep` stores into buffer word `w` for parameter `p` under
layout `L`: the word at the parameter's word index for a `float`, the three
consecutive words there for a `color`/`vec3`, and no word otherwise. -/
def writesWord (L : UniformLayout) (p : ShaderParam) (w : Nat) : Bool :=
  match L.offsetMap p.id with
  | none => false
  | some off =>
      if p.type = "float" then w == off / 4
      else if p.type = "color" ∨ p.type = "vec3" then
        w == off / 4 || w == off / 4 + 1 || w == off / 4 + 2
      else false

/-- A parameter whose runtime value matches its type tag, with one of the
three known tags — the shapes the host type system allows. -/
def wellFormed (p : ShaderParam) : Prop :=
  (p.type = "float" ∧ ∃ v, p.value = ParamValue.scalar v) ∨
  ((p.type = "color" ∨ p.type = "vec3") ∧ ∃ a b c, p.value = ParamValue.triple a b c)

/-- Number of buffer words `writeStep` may store for a well-formed
parameter. -/
def wordSpan (p : ShaderParam) : Nat := if p.type = "float" then 1 else 3

/-- Reading the serialized buffer back at the parameter's recorded offset
recovers its value: the word at `offset / 4` for a `float`, the three
consecutive words from `offset / 4` for a `color`/`vec3`. -/
def readsBack (L : UniformLayout) (buf : List ℚ) (p : ShaderParam) : Prop :=
  ∃ off, L.offsetMap p.id = some off ∧
    ((p.type = "float" → ∀ v, p.value = ParamValue.scalar v →
        buf[off / 4]? = some v) ∧
     ((p.type = "color" ∨ p.type = "vec3") → ∀ a b c,
        p.value = ParamValue.triple a b c →
        buf[off / 4]? = some a ∧ buf[off / 4 + 1]? = some b ∧
        buf[off / 4 + 2]? = some c))

/-- The three type tags `writeParamsToBuffer` serializes. -/
def isKnownType (p : ShaderParam) : Bool :=
  p.type == "float" || p.type == "color" || p.type == "vec3"

/-- Replace an unknown type tag by `float`, keeping everything else. -/
def retypeUnknown (p : ShaderParam) : ShaderParam :=
  if isKnownType p then p else { p with type := "float" }

/-! ### Arithmetic facts about `alignTo` -/

theorem alignTo_dvd (a c : Nat) (ha : 0 < a) : a ∣ alignTo a c := by
  rcases Nat.eq_zero_or_pos (c % a) with h | h
  · have : alignTo a c = c := by
      simp [alignTo, h, Nat.mod_self]
    rw [this]
    exact Nat.dvd_of_mod_eq_zero h
  · have hlt : c % a < a := Nat.mod_lt _ ha
    have hle : c % a ≤ c := Nat.mod_le c a
    have hpad : (a - c % a) % a = a - c % a := Nat.mod_eq_of_lt (by omega)
    have : alignTo a c = c - c % a + a := by
      simp only [alignTo, hpad]
      omega
    rw [this]
    have h1 : a ∣ c - c % a := by
      have := Nat.div_add_mod c a
      exact ⟨c / a, by omega⟩
    exact Nat.dvd_add h1 ⟨1, by omega⟩

theorem alignTo_ge (a c : Nat) : c ≤ alignTo a c := by
  simp [alignTo]

theorem alignTo_lt (a c : Nat) (ha : 0 < a) : alignTo a c < c + a := by
  have : (a - c % a) % a < a := Nat.mod_lt _ ha
  simp only [alignTo]
  omega

theorem alignTo_eq_of_dvd (a c : Nat) (h : a ∣ c) : alignTo a c = c := by
  obtain ⟨k, rfl⟩ := h
  simp [alignTo, Nat.mul_mod_right, Nat.mod_self]

theorem alignTo_min (a c y : Nat) (ha : 0 < a) (hy : a ∣ y) (hc : c ≤ y) :
    alignTo a c ≤ y := by
  by_contra hlt
  push_neg at hlt
  have h1 : a ∣ alignTo a c := alignTo_dvd a c ha
  have h2 : a ∣ alignTo a c - y := (Nat.dvd_sub' h1 hy)
  have h3 : 0 < alignTo a c - y := by omega
  have h4 : a ≤ alignTo a c - y := Nat.le_of_dvd h3 h2
  have h5 : alignTo a c < c + a := alignTo_lt a c ha
  omega

theorem alignTo_isLeast (a c : Nat) (ha : 0 < a) :
    isLeastMultGE a c (alignTo a c) :=
  ⟨alignTo_dvd a c ha, alignTo_ge a c, fun y hy hc => alignTo_min a c y ha hy hc⟩

theorem paramAlignment_pos (p : ShaderParam) : 0 < paramAlignment p := by
  unfold paramAlignment; split <;> norm_num

theorem four_dvd_paramAlignment (p : ShaderParam) : 4 ∣ paramAlignment p := by
  unfold paramAlignment; split <;> norm_num

theorem paramSize_eq_alignment (p : ShaderParam) : paramSize p = paramAlignment p := rfl

theorem paramSize_pos (p : ShaderParam) : 0 < paramSize p := by
  unfold paramSize; split <;> norm_num

/-! ### Bridging the foldl embedding with the recursive reading of the scan -/

theorem layoutStep_eq (c : Nat) (m : String → Option Nat) (p : ShaderParam) :
    layoutStep (c, m) p =
      (alignTo (paramAlignment p) c + paramSize p,
       fun k => if k = p.id then some (alignTo (paramAlignment p) c) else m k) := rfl

theorem foldl_layoutStep_fst (params : List ShaderParam) :
    ∀ c m, (params.foldl layoutStep (c, m)).1 = finalCursor params c := by
  induction params with
  | nil => intro c m; rfl
  | cons p rest ih =>
      intro c m
      rw [List.foldl_cons, layoutStep_eq]
      exact ih _ _

theorem foldl_layoutStep_snd (params : List ShaderParam) :
    ∀ c m k, (params.foldl layoutStep (c, m)).2 k =
      match lastOffsetOf params c k with
      | some o => some o
      | none => m k := by
  induction params with
  | nil => intro c m k; rfl
  | cons p rest ih =>
      intro c m k
      rw [List.foldl_cons, layoutStep_eq]
      rw [ih]
      show _ = match lastOffsetOf (p :: rest) c k with
        | some o => some o
        | none => m k
      rw [show lastOffsetOf (p :: rest) c k =
        match lastOffsetOf rest (alignTo (paramAlignment p) c + paramSize p) k with
        | some o => some o
        | none => if p.id = k then some (alignTo (paramAlignment p) c) else none from rfl]
      cases lastOffsetOf rest (alignTo (paramAlignment p) c + paramSize p) k with
      | some o => rfl
      | none =>
          by_cases h : p.id = k
          · simp [h]
          · have h' : ¬k = p.id := fun hk => h hk.symm
            simp [h, h']

theorem calc_size_eq (params : List ShaderParam) (base : Nat) :
    (calculateUniformLayout params base).size = alignTo 16 (finalCursor params base) := by
  show (params.foldl layoutStep (base, fun _ => none)).1 +
      (16 - (params.foldl layoutStep (base, fun _ => none)).1 % 16) % 16 = _
  rw [foldl_layoutStep_fst]
  rfl

theorem calc_offsetMap_eq (params : List ShaderParam) (base : Nat) (k : String) :
    (calculateUniformLayout params base).offsetMap k = lastOffsetOf params base k := by
  show (params.foldl layoutStep (base, fun _ => none)).2 k = _
  rw [foldl_layoutStep_snd]
  cases lastOffsetOf params base k <;> rfl

/-! ### Structural lemmas about the scan -/

theorem length_offsetsOf (params : List ShaderParam) :
    ∀ c, (offsetsOf params c).length = params.length := by
  induction params with
  | nil => intro c; rfl
  | cons p rest ih => intro c; simp [offsetsOf, ih]

theorem offsetsOf_ge (params : List ShaderParam) :
    ∀ c, ∀ o ∈ offsetsOf params c, c ≤ o := by
  induction params with
  | nil => intro c o ho; simp [offsetsOf] at ho
  | cons p rest ih =>
      intro c o ho
      rcases List.mem_cons.1 ho with h | h
      · subst h; exact alignTo_ge _ _
      · have h1 := ih (alignTo (paramAlignment p) c + paramSize p) o h
        have h2 := alignTo_ge (paramAlignment p) c
        omega

theorem finalCursor_ge (params : List ShaderParam) :
    ∀ c, c ≤ finalCursor params c := by
  induction params with
  | nil => intro c; exact Nat.le_refl c
  | cons p rest ih =>
      intro c
      show c ≤ finalCursor rest (alignTo (paramAlignment p) c + paramSize p)
      have h1 := ih (alignTo (paramAlignment p) c + paramSize p)
      have h2 := alignTo_ge (paramAlignment p) c
      have h3 := paramSize_pos p
      omega

theorem zip_end_le_finalCursor (params : List ShaderParam) :
    ∀ c, ∀ pr ∈ params.zip (offsetsOf params c),
      pr.2 + paramSize pr.1 ≤ finalCursor params c := by
  induction params with
  | nil => intro c pr hpr; simp [offsetsOf] at hpr
  | cons p rest ih =>
      intro c pr hpr
      rcases List.mem_cons.1 hpr with h | h
      · subst h
        exact finalCursor_ge rest _
      · exact ih _ pr h

theorem zip_pairwise_disjoint (params : List ShaderParam) :
    ∀ c, (params.zip (offsetsOf params c)).Pairwise
      (fun x y => x.2 + paramSize x.1 ≤ y.2) := by
  induction params with
  | nil => intro c; simp [offsetsOf]
  | cons p rest ih =>
      intro c
      refine List.Pairwise.cons ?_ (ih _)
      intro y hy
      have h1 := (List.of_mem_zip hy).2
      exact offsetsOf_ge rest _ y.2 h1

theorem zip_offset_dvd (params : List ShaderParam) :
    ∀ c, ∀ pr ∈ params.zip (offsetsOf params c), paramAlignment pr.1 ∣ pr.2 := by
  induction params with
  | nil => intro c pr hpr; simp [offsetsOf] at hpr
  | cons p rest ih =>
      intro c pr hpr
      rcases List.mem_cons.1 hpr with h | h
      · subst h
        exact alignTo_dvd _ _ (paramAlignment_pos p)
      · exact ih _ pr h

theorem exists_zip_offset (params : List ShaderParam) :
    ∀ c, ∀ p ∈ params, ∃ o, (p, o) ∈ params.zip (offsetsOf params c) := by
  induction params with
  | nil => intro c p hp; simp at hp
  | cons q rest ih =>
      intro c p hp
      rcases List.mem_cons.1 hp with h | h
      · subst h
        exact ⟨alignTo (paramAlignment p) c, List.mem_cons_self _ _⟩
      · obtain ⟨o, ho⟩ := ih (alignTo (paramAlignment q) c + paramSize q) p h
        exact ⟨o, List.mem_cons_of_mem _ ho⟩

theorem lastOffsetOf_none (params : List ShaderParam) :
    ∀ c k, k ∉ params.map (·.id) → lastOffsetOf params c k = none := by
  induction params with
  | nil => intro c k _; rfl
  | cons p rest ih =>
      intro c k hk
      simp only [List.map_cons, List.mem_cons] at hk
      push_neg at hk
      show (match lastOffsetOf rest (alignTo (paramAlignment p) c + paramSize p) k with
        | some o => some o
        | none => if p.id = k then some (alignTo (paramAlignment p) c) else none) = none
      rw [ih _ k hk.2]
      rw [if_neg (Ne.symm hk.1)]

theorem lastOffsetOf_of_nodup (params : List ShaderParam) :
    ∀ c, (params.map (·.id)).Nodup →
      ∀ pr ∈ params.zip (offsetsOf params c), lastOffsetOf params c pr.1.id = some pr.2 := by
  induction params with
  | nil => intro c _ pr hpr; simp [offsetsOf] at hpr
  | cons p rest ih =>
      intro c hnd pr hpr
      simp only [List.map_cons, List.nodup_cons] at hnd
      show (match lastOffsetOf rest (alignTo (paramAlignment p) c + paramSize p) pr.1.id with
        | some o => some o
        | none => if p.id = pr.1.id then some (alignTo (paramAlignment p) c) else none) = _
      rcases List.mem_cons.1 hpr with h | h
      · subst h
        rw [lastOffsetOf_none rest _ p.id hnd.1]
        simp
      · rw [ih _ hnd.2 pr h]

theorem lastOffsetOf_mem_zip (params : List ShaderParam) :
    ∀ c k o, lastOffsetOf params c k = some o →
      ∃ p, (p, o) ∈ params.zip (offsetsOf params c) ∧ p.id = k := by
  induction params with
  | nil => intro c k o h; simp [lastOffsetOf] at h
  | cons p rest ih =>
      intro c k o h
      rw [show lastOffsetOf (p :: rest) c k =
        match lastOffsetOf rest (alignTo (paramAlignment p) c + paramSize p) k with
        | some o => some o
        | none => if p.id = k then some (alignTo (paramAlignment p) c) else none from rfl] at h
      cases hrest : lastOffsetOf rest (alignTo (paramAlignment p) c + paramSize p) k with
      | some o' =>
          rw [hrest] at h
          obtain ⟨q, hq, hqid⟩ := ih _ k o' hrest
          cases h
          exact ⟨q, List.mem_cons_of_mem _ hq, hqid⟩
      | none =>
          rw [hrest] at h
          by_cases hid : p.id = k
          · rw [if_pos hid] at h
            cases h
            exact ⟨p, List.mem_cons_self _ _, hid⟩
          · rw [if_neg hid] at h
            cases h

theorem lastOffsetOf_dvd_four (params : List ShaderParam) (c : Nat) (k : String)
    (o : Nat) (h : lastOffsetOf params c k = some o) : 4 ∣ o := by
  obtain ⟨p, hp, -⟩ := lastOffsetOf_mem_zip params c k o h
  exact dvd_trans (four_dvd_paramAlignment p) (zip_offset_dvd params c _ hp)

theorem scanSpec_offsetsOf (params : List ShaderParam) :
    ∀ c, scanSpec params c (offsetsOf params c) := by
  induction params with
  | nil => intro c; rfl
  | cons p rest ih =>
      intro c
      exact ⟨alignTo (paramAlignment p) c, offsetsOf rest _, rfl,
        alignTo_isLeast _ _ (paramAlignment_pos p), ih _⟩

theorem paramAlignment_float (p : ShaderParam) (h : p.type = "float") :
    paramAlignment p = 4 := by
  unfold paramAlignment
  rw [h]
  decide

theorem paramAlignment_vec (p : ShaderParam)
    (h : p.type = "color" ∨ p.type = "vec3") : paramAlignment p = 16 := by
  unfold paramAlignment
  rw [if_pos h]

theorem uniform_offsetsOf (a : Nat) :
    ∀ params : List ShaderParam, (∀ p ∈ params, paramAlignment p = a) →
      ∀ base, offsetsOf params base =
        (List.range params.length).map (fun i => alignTo a base + a * i) := by
  intro params
  induction params with
  | nil => intro _ base; simp [offsetsOf]
  | cons p rest ih =>
      intro h base
      have hp : paramAlignment p = a := h p (List.mem_cons_self p rest)
      have hrest : ∀ q ∈ rest, paramAlignment q = a :=
        fun q hq => h q (List.mem_cons_of_mem p hq)
      have ha : 0 < a := hp ▸ paramAlignment_pos p
      have hDvd : a ∣ alignTo a base + a := Nat.dvd_add (alignTo_dvd a base ha) dvd_rfl
      show alignTo (paramAlignment p) base ::
          offsetsOf rest (alignTo (paramAlignment p) base + paramSize p)
          = (List.range (rest.length + 1)).map (fun i => alignTo a base + a * i)
      rw [paramSize_eq_alignment, hp, ih hrest (alignTo a base + a),
        alignTo_eq_of_dvd a (alignTo a base + a) hDvd,
        List.range_succ_eq_map, List.map_cons, List.map_map]
      congr 1
      apply List.map_congr_left
      intro i _
      simp only [Function.comp_apply, Nat.succ_eq_add_one]
      ring

theorem uniform_finalCursor (a : Nat) :
    ∀ params : List ShaderParam, (∀ p ∈ params, paramAlignment p = a) →
      ∀ base, params ≠ [] →
        finalCursor params base = alignTo a base + a * params.length := by
  intro params
  induction params with
  | nil => intro _ _ h; exact absurd rfl h
  | cons p rest ih =>
      intro h base _
      have hp : paramAlignment p = a := h p (List.mem_cons_self p rest)
      have hrest : ∀ q ∈ rest, paramAlignment q = a :=
        fun q hq => h q (List.mem_cons_of_mem p hq)
      have ha : 0 < a := hp ▸ paramAlignment_pos p
      have hDvd : a ∣ alignTo a base + a := Nat.dvd_add (alignTo_dvd a base ha) dvd_rfl
      show finalCursor rest (alignTo (paramAlignment p) base + paramSize p)
          = alignTo a base + a * (rest.length + 1)
      rw [paramSize_eq_alignment, hp]
      rcases rest with _ | ⟨q, rs⟩
      · show alignTo a base + a = alignTo a base + a * (0 + 1)
        simp
      · rw [ih hrest (alignTo a base + a) (by simp),
          alignTo_eq_of_dvd a _ hDvd, Nat.mul_succ]
        omega

theorem getD_range_map (f : Nat → Nat) (n i : Nat) (h : i < n) :
    ((List.range n).map f).getD i 0 = f i := by
  rw [List.getD_eq_getElem?_getD, List.getElem?_map, List.getElem?_range h]
  rfl

/-! ### Serialization lemmas -/

theorem writeStep_length (L : UniformLayout) (data : List ℚ) (p : ShaderParam) :
    (writeStep L data p).length = data.length := by
  unfold writeStep
  cases h : L.offsetMap p.id with
  | none => rfl
  | some off =>
      simp only
      split_ifs
      · cases p.value <;> simp
      · cases p.value <;> simp
      · rfl
      · rfl

theorem writeParamsToBuffer_length (L : UniformLayout) (params : List ShaderParam) :
    ∀ data : List ℚ, (writeParamsToBuffer data params L).length = data.length := by
  induction params with
  | nil => intro data; rfl
  | cons p rest ih =>
      intro data
      show (writeParamsToBuffer (writeStep L data p) rest L).length = data.length
      rw [ih, writeStep_length]

theorem writeStep_some (L : UniformLayout) (data : List ℚ) (p : ShaderParam)
    (off : Nat) (h : L.offsetMap p.id = some off) :
    writeStep L data p =
      if 4 ∣ off then
        if p.type = "float" then
          match p.value with
          | ParamValue.scalar v => data.set (off / 4) v
          | _ => data
        else if p.type = "color" ∨ p.type = "vec3" then
          match p.value with
          | ParamValue.triple a b c =>
              ((data.set (off / 4) a).set (off / 4 + 1) b).set (off / 4 + 2) c
          | _ => data
        else data
      else data := by
  unfold writeStep
  rw [h]

theorem writesWord_some (L : UniformLayout) (p : ShaderParam) (off w : Nat)
    (h : L.offsetMap p.id = some off) :
    writesWord L p w =
      (if p.type = "float" then w == off / 4
       else if p.type = "color" ∨ p.type = "vec3" then
         w == off / 4 || w == off / 4 + 1 || w == off / 4 + 2
       else false) := by
  unfold writesWord
  rw [h]

theorem writesWord_none (L : UniformLayout) (p : ShaderParam) (w : Nat)
    (h : L.offsetMap p.id = none) : writesWord L p w = false := by
  unfold writesWord
  rw [h]

theorem writeStep_frame (L : UniformLayout) (data : List ℚ) (p : ShaderParam)
    (w : Nat) (h : writesWord L p w = false) :
    (writeStep L data p)[w]? = data[w]? := by
  cases hoff : L.offsetMap p.id with
  | none =>
      unfold writeStep
      rw [hoff]
  | some off =>
      rw [writesWord_some L p off w hoff] at h
      rw [writeStep_some L data p off hoff]
      split_ifs with h4 hf hv
      · rw [if_pos hf] at h
        have hne : w ≠ off / 4 := by
          intro he
          rw [he] at h
          simp at h
        cases hval : p.value with
        | scalar v => exact List.getElem?_set_ne hne.symm
        | triple a b c => rfl
      · rw [if_neg hf, if_pos hv] at h
        have hne : w ≠ off / 4 ∧ w ≠ off / 4 + 1 ∧ w ≠ off / 4 + 2 := by
          refine ⟨?_, ?_, ?_⟩ <;> intro he <;> rw [he] at h <;> simp at h
        cases hval : p.value with
        | scalar v => rfl
        | triple a b c =>
            rw [List.getElem?_set_ne hne.2.2.symm,
              List.getElem?_set_ne hne.2.1.symm,
              List.getElem?_set_ne hne.1.symm]
      · rfl
      · rfl

theorem writeParamsToBuffer_frame (L : UniformLayout) (params : List ShaderParam) :
    ∀ (data : List ℚ) (w : Nat), (∀ p ∈ params, writesWord L p w = false) →
      (writeParamsToBuffer data params L)[w]? = data[w]? := by
  induction params with
  | nil => intro data w _; rfl
  | cons p rest ih =>
      intro data w h
      show (writeParamsToBuffer (writeStep L data p) rest L)[w]? = data[w]?
      rw [ih _ w (fun q hq => h q (List.mem_cons_of_mem p hq)),
        writeStep_frame L data p w (h p (List.mem_cons_self p rest))]

theorem writeStep_writes_scalar (L : UniformLayout) (data : List ℚ)
    (p : ShaderParam) (v : ℚ) (off : Nat)
    (hty : p.type = "float") (hval : p.value = ParamValue.scalar v)
    (hoff : L.offsetMap p.id = some off) (hdvd : 4 ∣ off)
    (hlt : off / 4 < data.length) :
    (writeStep L data p)[off / 4]? = some v := by
  rw [writeStep_some L data p off hoff, if_pos hdvd, if_pos hty, hval]
  exact List.getElem?_set_eq_of_lt v hlt

theorem writeStep_writes_triple (L : UniformLayout) (data : List ℚ)
    (p : ShaderParam) (a b c : ℚ) (off : Nat)
    (hty : p.type = "color" ∨ p.type = "vec3")
    (hval : p.value = ParamValue.triple a b c)
    (hoff : L.offsetMap p.id = some off) (hdvd : 4 ∣ off)
    (hlt : off / 4 + 2 < data.length) :
    (writeStep L data p)[off / 4]? = some a ∧
    (writeStep L data p)[off / 4 + 1]? = some b ∧
    (writeStep L data p)[off / 4 + 2]? = some c := by
  have hnf : ¬p.type = "float" := by
    rcases hty with h | h <;> rw [h] <;> decide
  rw [writeStep_some L data p off hoff, if_pos hdvd, if_neg hnf, if_pos hty, hval]
  refine ⟨?_, ?_, ?_⟩
  · rw [List.getElem?_set_ne (by omega), List.getElem?_set_ne (by omega)]
    exact List.getElem?_set_eq_of_lt a (by omega)
  · rw [List.getElem?_set_ne (by omega)]
    exact List.getElem?_set_eq_of_lt b (by simp [List.length_set]; omega)
  · exact List.getElem?_set_eq_of_lt c (by simp [List.length_set]; omega)

theorem write_read_back (L : UniformLayout) (qs : List ShaderParam) :
    ∀ data : List ℚ,
      (∀ q ∈ qs, wellFormed q) →
      (∀ q ∈ qs, ∃ off, L.offsetMap q.id = some off ∧ 4 ∣ off ∧
        off / 4 + wordSpan q ≤ data.length) →
      qs.Pairwise (fun p q => ∀ w, writesWord L p w = true → writesWord L q w = false) →
      ∀ p ∈ qs, readsBack L (writeParamsToBuffer data qs L) p := by
  induction qs with
  | nil => intro data _ _ _ p hp; cases hp
  | cons q rest ih =>
      intro data hwf hok hdisj p hp
      obtain ⟨hd, tl⟩ := List.pairwise_cons.1 hdisj
      rcases List.mem_cons.1 hp with rfl | hp2
      · obtain ⟨off, hoff, hdvd, hlen⟩ := hok p (List.mem_cons_self p rest)
        have hhead : ∀ w, writesWord L p w = true →
            ∀ r ∈ rest, writesWord L r w = false :=
          fun w hw r hr => hd r hr w hw
        refine ⟨off, hoff, ?_, ?_⟩
        · intro hty v hval
          have hspan : wordSpan p = 1 := by unfold wordSpan; rw [if_pos hty]
          have hlt : off / 4 < data.length := by rw [hspan] at hlen; omega
          have hw : writesWord L p (off / 4) = true := by
            rw [writesWord_some L p off _ hoff, if_pos hty]; simp
          show (writeParamsToBuffer (writeStep L data p) rest L)[off / 4]? = some v
          rw [writeParamsToBuffer_frame L rest _ _ (fun r hr => hhead _ hw r hr)]
          exact writeStep_writes_scalar L data p v off hty hval hoff hdvd hlt
        · intro hty a b c hval
          have hnf : ¬p.type = "float" := by
            rcases hty with h | h <;> rw [h] <;> decide
          have hspan : wordSpan p = 3 := by unfold wordSpan; rw [if_neg hnf]
          have hlt : off / 4 + 2 < data.length := by rw [hspan] at hlen; omega
          have hw0 : writesWord L p (off / 4) = true := by
            rw [writesWord_some L p off _ hoff, if_neg hnf, if_pos hty]; simp
          have hw1 : writesWord L p (off / 4 + 1) = true := by
            rw [writesWord_some L p off _ hoff, if_neg hnf, if_pos hty]; simp
          have hw2 : writesWord L p (off / 4 + 2) = true := by
            rw [writesWord_some L p off _ hoff, if_neg hnf, if_pos hty]; simp
          have hwr := writeStep_writes_triple L data p a b c off hty hval hoff hdvd hlt
          refine ⟨?_, ?_, ?_⟩
          · show (writeParamsToBuffer (writeStep L data p) rest L)[off / 4]? = some a
            rw [writeParamsToBuffer_frame L rest _ _ (fun r hr => hhead _ hw0 r hr)]
            exact hwr.1
          · show (writeParamsToBuffer (writeStep L data p) rest L)[off / 4 + 1]? = some b
            rw [writeParamsToBuffer_frame L rest _ _ (fun r hr => hhead _ hw1 r hr)]
            exact hwr.2.1
          · show (writeParamsToBuffer (writeStep L data p) rest L)[off / 4 + 2]? = some c
            rw [writeParamsToBuffer_frame L rest _ _ (fun r hr => hhead _ hw2 r hr)]
            exact hwr.2.2
      · refine ih (writeStep L data q)
          (fun r hr => hwf r (List.mem_cons_of_mem q hr)) ?_ tl p hp2
        intro r hr
        obtain ⟨o2, h1, h2, h3⟩ := hok r (List.mem_cons_of_mem q hr)
        exact ⟨o2, h1, h2, by rw [writeStep_length]; exact h3⟩

theorem calc_pairwise_disjoint (params : List ShaderParam) (base : Nat)
    (hU : (params.map (·.id)).Nodup) :
    params.Pairwise (fun p q => ∀ w,
      writesWord (calculateUniformLayout params base) p w = true →
      writesWord (calculateUniformLayout params base) q w = false) := by
  have hzip2 : (params.zip (offsetsOf params base)).Pairwise
      (fun x y => ∀ w,
        writesWord (calculateUniformLayout params base) x.1 w = true →
        writesWord (calculateUniformLayout params base) y.1 w = false) := by
    refine (zip_pairwise_disjoint params base).imp_of_mem ?_
    intro x y hx hy hrel w hw
    have hox : (calculateUniformLayout params base).offsetMap x.1.id = some x.2 := by
      rw [calc_offsetMap_eq]
      exact lastOffsetOf_of_nodup params base hU x hx
    have hoy : (calculateUniformLayout params base).offsetMap y.1.id = some y.2 := by
      rw [calc_offsetMap_eq]
      exact lastOffsetOf_of_nodup params base hU y hy
    have hdx : 4 ∣ x.2 :=
      dvd_trans (four_dvd_paramAlignment x.1) (zip_offset_dvd params base x hx)
    have hdy : 4 ∣ y.2 :=
      dvd_trans (four_dvd_paramAlignment y.1) (zip_offset_dvd params base y hy)
    rw [writesWord_some _ x.1 x.2 w hox] at hw
    rw [writesWord_some _ y.1 y.2 w hoy]
    have hwbound : 4 * w + 4 ≤ y.2 := by
      split_ifs at hw with hfx hvx
      · have hsx : paramSize x.1 = 4 := by
          rw [paramSize_eq_alignment, paramAlignment_float x.1 hfx]
        have hwe : w = x.2 / 4 := by simpa using hw
        rw [hsx] at hrel
        omega
      · have hsx : paramSize x.1 = 16 := by
          rw [paramSize_eq_alignment, paramAlignment_vec x.1 hvx]
        rw [hsx] at hrel
        simp only [Bool.or_eq_true, beq_iff_eq] at hw
        rcases hw with (hwe | hwe) | hwe <;> omega
    have hwlt : w < y.2 / 4 := by omega
    split_ifs with hfy hvy
    · simp only [beq_eq_false_iff_ne]
      omega
    · simp only [Bool.or_eq_false_iff, beq_eq_false_iff_ne]
      omega
    · rfl
  have hmap : (params.zip (offsetsOf params base)).map Prod.fst = params :=
    List.map_fst_zip _ _ (by rw [length_offsetsOf])
  have h2 : ((params.zip (offsetsOf params base)).map Prod.fst).Pairwise
      (fun p q => ∀ w,
        writesWord (calculateUniformLayout params base) p w = true →
        writesWord (calculateUniformLayout params base) q w = false) :=
    hzip2.map Prod.fst (fun x y h => h)
  rw [hmap] at h2
  exact h2


theorem lastOffsetOf_last_occurrence (params : List ShaderParam) :
    ∀ c k, k ∈ params.map (·.id) →
      ∃ (i : Nat) (q : ShaderParam) (o : Nat), params[i]? = some q ∧ q.id = k ∧
        (∀ (j : Nat) (q' : ShaderParam), i < j → params[j]? = some q' → q'.id ≠ k) ∧
        (offsetsOf params c)[i]? = some o ∧ lastOffsetOf params c k = some o := by
  induction params with
  | nil => intro c k hk; simp at hk
  | cons p rest ih =>
      intro c k hk
      by_cases hkr : k ∈ rest.map (·.id)
      · obtain ⟨i, q, o, h1, h2, h3, h4, h5⟩ :=
          ih (alignTo (paramAlignment p) c + paramSize p) k hkr
        refine ⟨i + 1, q, o, ?_, h2, ?_, ?_, ?_⟩
        · simpa using h1
        · intro j q' hij hj
          cases j with
          | zero => omega
          | succ j' =>
              apply h3 j' q' (by omega)
              simpa using hj
        · show (alignTo (paramAlignment p) c ::
              offsetsOf rest (alignTo (paramAlignment p) c + paramSize p))[i + 1]?
              = some o
          simpa using h4
        · show (match lastOffsetOf rest (alignTo (paramAlignment p) c + paramSize p) k with
            | some o => some o
            | none => if p.id = k then some (alignTo (paramAlignment p) c) else none)
            = some o
          rw [h5]
      · have hpk : p.id = k := by
          simp only [List.map_cons, List.mem_cons] at hk
          rcases hk with h | h
          · exact h.symm
          · exact absurd h hkr
        refine ⟨0, p, alignTo (paramAlignment p) c, by simp, hpk, ?_,
          by simp [offsetsOf], ?_⟩
        · intro j q' hj hget hq'
          cases j with
          | zero => omega
          | succ j' =>
              apply hkr
              have hmem : q' ∈ rest := by
                have : rest[j']? = some q' := by simpa using hget
                exact List.getElem?_mem this
              exact hq' ▸ List.mem_map_of_mem _ hmem
        · show (match lastOffsetOf rest (alignTo (paramAlignment p) c + paramSize p) k with
            | some o => some o
            | none => if p.id = k then some (alignTo (paramAlignment p) c) else none)
            = some (alignTo (paramAlignment p) c)
          rw [lastOffsetOf_none rest _ k hkr, if_pos hpk]

theorem finalCursor_ge_sum (params : List ShaderParam) :
    ∀ c, c + (params.map paramSize).sum ≤ finalCursor params c := by
  induction params with
  | nil => intro c; simp [finalCursor]
  | cons p rest ih =>
      intro c
      have hmc : ((p :: rest).map paramSize).sum
          = paramSize p + (rest.map paramSize).sum := by
        simp
      show c + ((p :: rest).map paramSize).sum
          ≤ finalCursor rest (alignTo (paramAlignment p) c + paramSize p)
      rw [hmc]
      have h1 := ih (alignTo (paramAlignment p) c + paramSize p)
      have h2 := alignTo_ge (paramAlignment p) c
      omega

theorem layoutStep_retype (acc : Nat × (String → Option Nat)) (p : ShaderParam) :
    layoutStep acc (retypeUnknown p) = layoutStep acc p := by
  obtain ⟨pid, pty, pv⟩ := p
  unfold retypeUnknown
  split
  · rfl
  · rename_i h
    have h3 : ¬(pty = "color" ∨ pty = "vec3") := by
      intro hc
      apply h
      unfold isKnownType
      rcases hc with hc | hc <;> rw [hc] <;> rfl
    simp [layoutStep, h3]

theorem foldl_layoutStep_retype :
    ∀ (params : List ShaderParam) (acc : Nat × (String → Option Nat)),
      (params.map retypeUnknown).foldl layoutStep acc = params.foldl layoutStep acc := by
  intro params
  induction params with
  | nil => intro acc; rfl
  | cons p rest ih =>
      intro acc
      show (rest.map retypeUnknown).foldl layoutStep (layoutStep acc (retypeUnknown p))
          = rest.foldl layoutStep (layoutStep acc p)
      rw [layoutStep_retype, ih]

theorem writeStep_unknown (L : UniformLayout) (data : List ℚ) (p : ShaderParam)
    (h : isKnownType p = false) : writeStep L data p = data := by
  simp only [isKnownType, Bool.or_eq_false_iff, beq_eq_false_iff_ne] at h
  have h1 : ¬p.type = "float" := h.1.1
  have h2 : ¬(p.type = "color" ∨ p.type = "vec3") := by
    rintro (hc | hc)
    exacts [h.1.2 hc, h.2 hc]
  cases hoff : L.offsetMap p.id with
  | none =>
      unfold writeStep
      rw [hoff]
  | some off =>
      rw [writeStep_some L data p off hoff, if_neg h1, if_neg h2]
      split <;> rfl

theorem writeParamsToBuffer_filter (L : UniformLayout) :
    ∀ (params : List ShaderParam) (data : List ℚ),
      writeParamsToBuffer data params L =
        writeParamsToBuffer data (params.filter isKnownType) L := by
  intro params
  induction params with
  | nil => intro data; rfl
  | cons p rest ih =>
      intro data
      show writeParamsToBuffer (writeStep L data p) rest L
          = writeParamsToBuffer data ((p :: rest).filter isKnownType) L
      cases hk : isKnownType p with
      | true =>
          rw [List.filter_cons_of_pos hk, ih]
          rfl
      | false =>
          rw [writeStep_unknown L data p hk, List.filter_cons_of_neg (by simp [hk]), ih]

/-! ### Claims -/

/-- Claim C1: `calculateUniformLayout` assigns offsets by a left-to-right
scan — the first parameter's offset is the smallest multiple of its alignment
(16 for `color`/`vec3`, 4 for `float`) at least `baseOffset`, each later
parameter's offset is the smallest multiple of its alignment at least the
previous offset plus the previous size, the offset record holds exactly the
scan's assignments (last occurrence per id), and for a non-empty list the
total size is the smallest multiple of 16 at least the last offset plus the
last size (the final cursor).  In particular `[Float "a", ColorOrVec3 "c"]`
with base 0 yields offsets 0 and 16 and total size 32. -/
theorem claim_C1 (params : List ShaderParam) (base : Nat) :
    scanSpec params base (offsetsOf params base) ∧
    (∀ k, (calculateUniformLayout params base).offsetMap k = lastOffsetOf params base k) ∧
    (params ≠ [] →
      isLeastMultGE 16 (finalCursor params base) (calculateUniformLayout params base).size) ∧
    ((calculateUniformLayout
        [⟨"a", "float", .scalar 0⟩, ⟨"c", "color", .triple 0 0 0⟩] 0).offsetMap "a"
        = some 0 ∧
     (calculateUniformLayout
        [⟨"a", "float", .scalar 0⟩, ⟨"c", "color", .triple 0 0 0⟩] 0).offsetMap "c"
        = some 16 ∧
     (calculateUniformLayout
        [⟨"a", "float", .scalar 0⟩, ⟨"c", "color", .triple 0 0 0⟩] 0).size = 32) := by
  refine ⟨scanSpec_offsetsOf params base, calc_offsetMap_eq params base, ?_, ?_⟩
  · intro _
    rw [calc_size_eq]
    exact alignTo_isLeast 16 _ (by norm_num)
  · refine ⟨by decide, by decide, by decide⟩

/-- Witness for C1 at a concrete input. -/
theorem claim_C1_witness :
    ([⟨"b", "float", ParamValue.scalar 1⟩] : List ShaderParam) ≠ [] ∧
    isLeastMultGE 16 (finalCursor [⟨"b", "float", ParamValue.scalar 1⟩] 3)
      (calculateUniformLayout [⟨"b", "float", ParamValue.scalar 1⟩] 3).size :=
  ⟨by decide, (claim_C1 [⟨"b", "float", ParamValue.scalar 1⟩] 3).2.2.1 (by decide)⟩

/-- Claim C2: for every parameter list and base offset (aligned or not),
the scan records a multiple of 4 for every `float`-branch parameter and a
multiple of 16 for every `color`/`vec3` parameter, each parameter occupies
its reserved bytes without overlap (later offsets start past the previous
slot's end, and every slot ends within the total size), and every entry of
the returned offset record is divisible by 4, so the word-index division
by 4 performed by `writeParamsToBuffer` is exact. -/
theorem claim_C2 (params : List ShaderParam) (base : Nat) :
    (∀ pr ∈ params.zip (offsetsOf params base),
       (pr.1.type = "float" → 4 ∣ pr.2 ∧ paramSize pr.1 = 4) ∧
       ((pr.1.type = "color" ∨ pr.1.type = "vec3") → 16 ∣ pr.2 ∧ paramSize pr.1 = 16)) ∧
    ((params.zip (offsetsOf params base)).Pairwise
       (fun x y => x.2 + paramSize x.1 ≤ y.2)) ∧
    (∀ pr ∈ params.zip (offsetsOf params base),
       pr.2 + paramSize pr.1 ≤ (calculateUniformLayout params base).size) ∧
    (∀ k o, (calculateUniformLayout params base).offsetMap k = some o → 4 ∣ o) := by
  refine ⟨?_, zip_pairwise_disjoint params base, ?_, ?_⟩
  · intro pr hpr
    have hdvd := zip_offset_dvd params base pr hpr
    constructor
    · intro hf
      have ha : paramAlignment pr.1 = 4 := by
        unfold paramAlignment
        rw [hf]
        decide
      rw [ha] at hdvd
      exact ⟨hdvd, by rw [paramSize_eq_alignment, ha]⟩
    · intro hv
      have ha : paramAlignment pr.1 = 16 := by
        unfold paramAlignment
        rw [if_pos hv]
      rw [ha] at hdvd
      exact ⟨hdvd, by rw [paramSize_eq_alignment, ha]⟩
  · intro pr hpr
    have h1 := zip_end_le_finalCursor params base pr hpr
    have h2 : finalCursor params base ≤ (calculateUniformLayout params base).size := by
      rw [calc_size_eq]
      exact alignTo_ge _ _
    omega
  · intro k o h
    rw [calc_offsetMap_eq] at h
    exact lastOffsetOf_dvd_four params base k o h

/-- Witness for C2 at a concrete input. -/
theorem claim_C2_witness :
    (calculateUniformLayout
       [⟨"a", "float", ParamValue.scalar 0⟩, ⟨"c", "color", ParamValue.triple 0 0 0⟩]
       0).offsetMap "c" = some 16 ∧ (4 : Nat) ∣ 16 :=
  ⟨by decide,
   (claim_C2 [⟨"a", "float", ParamValue.scalar 0⟩, ⟨"c", "color", ParamValue.triple 0 0 0⟩]
     0).2.2.2 "c" 16 (by decide)⟩

/-- Counterexample to claim C3 as stated: for the empty list with base
offset 48 the code returns total size 48, not 64 — 48 is already a multiple
of 16, so the final rounding `(16 - 48 % 16) % 16` adds nothing. -/
theorem claim_C3_counterexample :
    (calculateUniformLayout [] 48).size ≠ 64 := by decide

/-- Claim C6: round-trip — for a parameter list with unique ids whose
entries are well-formed `float` / `color` / `vec3` descriptors, and a
destination buffer of at least `totalSizeBytes / 4` words, after
`writeParamsToBuffer` runs with the layout from `calculateUniformLayout`,
reading the buffer word at `offsetOf[id] / 4` yields each `float`
parameter's value, and the three consecutive words starting there yield
each `color`/`vec3` parameter's components. -/
theorem claim_C6 (params : List ShaderParam) (base : Nat) (data : List ℚ)
    (hU : (params.map (·.id)).Nodup)
    (hwf : ∀ p ∈ params, wellFormed p)
    (hlen : (calculateUniformLayout params base).size / 4 ≤ data.length) :
    ∀ p ∈ params,
      readsBack (calculateUniformLayout params base)
        (writeParamsToBuffer data params (calculateUniformLayout params base)) p := by
  apply write_read_back
  · exact hwf
  · intro q hq
    obtain ⟨o, ho⟩ := exists_zip_offset params base q hq
    have hmap : (calculateUniformLayout params base).offsetMap q.id = some o := by
      rw [calc_offsetMap_eq]
      exact lastOffsetOf_of_nodup params base hU (q, o) ho
    have hdvd : 4 ∣ o :=
      dvd_trans (four_dvd_paramAlignment q) (zip_offset_dvd params base (q, o) ho)
    have hbound : o + paramSize q ≤ (calculateUniformLayout params base).size := by
      have h1 := zip_end_le_finalCursor params base (q, o) ho
      have h2 : finalCursor params base ≤ (calculateUniformLayout params base).size := by
        rw [calc_size_eq]
        exact alignTo_ge _ _
      exact le_trans h1 h2
    have hsize4 : 4 ∣ (calculateUniformLayout params base).size := by
      rw [calc_size_eq]
      exact dvd_trans (by norm_num) (alignTo_dvd 16 _ (by norm_num))
    refine ⟨o, hmap, hdvd, ?_⟩
    rcases hwf q hq with ⟨hty, -⟩ | ⟨hty, -⟩
    · have h1 : wordSpan q = 1 := by unfold wordSpan; rw [if_pos hty]
      have h2 : paramSize q = 4 := by
        rw [paramSize_eq_alignment, paramAlignment_float q hty]
      rw [h2] at hbound
      omega
    · have hnf : ¬q.type = "float" := by
        rcases hty with h | h <;> rw [h] <;> decide
      have h1 : wordSpan q = 3 := by unfold wordSpan; rw [if_neg hnf]
      have h2 : paramSize q = 16 := by
        rw [paramSize_eq_alignment, paramAlignment_vec q hty]
      rw [h2] at hbound
      omega
  · exact calc_pairwise_disjoint params base hU

/-- Witness for C6 at a concrete input: serializing
`[float "a" = 5, color "c" = (7, 8, 9)]` into an 8-word buffer stores 7 at
word 4 — `offsetOf.c = 16`, word index 4. -/
theorem claim_C6_witness :
    (writeParamsToBuffer [0, 0, 0, 0, 0, 0, 0, 0]
      [⟨"a", "float", ParamValue.scalar 5⟩, ⟨"c", "color", ParamValue.triple 7 8 9⟩]
      (calculateUniformLayout
        [⟨"a", "float", ParamValue.scalar 5⟩, ⟨"c", "color", ParamValue.triple 7 8 9⟩]
        0))[4]? = some 7 := by
  have h := claim_C6
    [⟨"a", "float", ParamValue.scalar 5⟩, ⟨"c", "color", ParamValue.triple 7 8 9⟩]
    0 [0, 0, 0, 0, 0, 0, 0, 0] (by decide)
    (by
      intro p hp
      rcases List.mem_cons.1 hp with rfl | hp2
      · exact Or.inl ⟨rfl, 5, rfl⟩
      rcases List.mem_cons.1 hp2 with rfl | hp3
      · exact Or.inr ⟨Or.inl rfl, 7, 8, 9, rfl⟩
      cases hp3)
    (by decide)
    ⟨"c", "color", ParamValue.triple 7 8 9⟩
    (by decide)
  obtain ⟨off, hoff, -, hv⟩ := h
  have hmap : (calculateUniformLayout
      [⟨"a", "float", ParamValue.scalar 5⟩, ⟨"c", "color", ParamValue.triple 7 8 9⟩]
      0).offsetMap "c" = some 16 := by decide
  rw [hmap] at hoff
  cases hoff
  exact (hv (Or.inl rfl) 7 8 9 rfl).1

/-- Counterexample to claim C7 as stated: it quantifies over every
parameter list, but with a duplicated id the offset record maps the id to
the LAST occurrence's offset, so an earlier, larger occurrence can spill
past the total size.  For
`[vec3 "x", float "a", float "b", float "x"]` with base 0 the record maps
`"x"` to 24 and the total size is 32, yet the first parameter (a `vec3`,
size 16) gives 24 + 16 = 40 > 32; the writer then touches word index 8,
which is not below `totalSizeBytes / 4 = 8`. -/
theorem claim_C7_counterexample :
    (calculateUniformLayout
       [⟨"x", "vec3", ParamValue.triple 1 2 3⟩, ⟨"a", "float", ParamValue.scalar 0⟩,
        ⟨"b", "float", ParamValue.scalar 0⟩, ⟨"x", "float", ParamValue.scalar 9⟩]
       0).offsetMap "x" = some 24 ∧
    (calculateUniformLayout
       [⟨"x", "vec3", ParamValue.triple 1 2 3⟩, ⟨"a", "float", ParamValue.scalar 0⟩,
        ⟨"b", "float", ParamValue.scalar 0⟩, ⟨"x", "float", ParamValue.scalar 9⟩]
       0).size = 32 ∧
    paramSize ⟨"x", "vec3", ParamValue.triple 1 2 3⟩ = 16 ∧
    ¬(24 + 16 ≤ 32) ∧
    writesWord
      (calculateUniformLayout
        [⟨"x", "vec3", ParamValue.triple 1 2 3⟩, ⟨"a", "float", ParamValue.scalar 0⟩,
         ⟨"b", "float", ParamValue.scalar 0⟩, ⟨"x", "float", ParamValue.scalar 9⟩]
        0)
      ⟨"x", "vec3", ParamValue.triple 1 2 3⟩ 8 = true ∧
    ¬(8 < (calculateUniformLayout
        [⟨"x", "vec3", ParamValue.triple 1 2 3⟩, ⟨"a", "float", ParamValue.scalar 0⟩,
         ⟨"b", "float", ParamValue.scalar 0⟩, ⟨"x", "float", ParamValue.scalar 9⟩]
        0).size / 4) := by decide

/-- Claim C7 amended (restricted to unique ids, as the rest of the spec
assumes): every parameter's recorded offset plus its size fits inside the
total size, and every buffer word index the writer touches is below
`totalSizeBytes / 4`, so a buffer of that many words contains every
write. -/
theorem claim_C7_amended_thm (params : List ShaderParam) (base : Nat)
    (hU : (params.map (·.id)).Nodup) :
    (∀ p ∈ params, ∃ off,
       (calculateUniformLayout params base).offsetMap p.id = some off ∧
       off + paramSize p ≤ (calculateUniformLayout params base).size) ∧
    (∀ w p, p ∈ params →
       writesWord (calculateUniformLayout params base) p w = true →
       w < (calculateUniformLayout params base).size / 4) := by
  have hsizeFC : finalCursor params base ≤ (calculateUniformLayout params base).size := by
    rw [calc_size_eq]
    exact alignTo_ge _ _
  have hsize4 : 4 ∣ (calculateUniformLayout params base).size := by
    rw [calc_size_eq]
    exact dvd_trans (by norm_num) (alignTo_dvd 16 _ (by norm_num))
  constructor
  · intro p hp
    obtain ⟨o, ho⟩ := exists_zip_offset params base p hp
    have hmap : (calculateUniformLayout params base).offsetMap p.id = some o := by
      rw [calc_offsetMap_eq]
      exact lastOffsetOf_of_nodup params base hU (p, o) ho
    exact ⟨o, hmap, le_trans (zip_end_le_finalCursor params base (p, o) ho) hsizeFC⟩
  · intro w p hp hw
    obtain ⟨o, ho⟩ := exists_zip_offset params base p hp
    have hmap : (calculateUniformLayout params base).offsetMap p.id = some o := by
      rw [calc_offsetMap_eq]
      exact lastOffsetOf_of_nodup params base hU (p, o) ho
    have hdvd : 4 ∣ o :=
      dvd_trans (four_dvd_paramAlignment p) (zip_offset_dvd params base (p, o) ho)
    have hbound : o + paramSize p ≤ (calculateUniformLayout params base).size :=
      le_trans (zip_end_le_finalCursor params base (p, o) ho) hsizeFC
    rw [writesWord_some _ p o w hmap] at hw
    split_ifs at hw with hf hv
    · have hs : paramSize p = 4 := by
        rw [paramSize_eq_alignment, paramAlignment_float p hf]
      have hwe : w = o / 4 := by simpa using hw
      rw [hs] at hbound
      omega
    · have hs : paramSize p = 16 := by
        rw [paramSize_eq_alignment, paramAlignment_vec p hv]
      rw [hs] at hbound
      simp only [Bool.or_eq_true, beq_iff_eq] at hw
      rcases hw with (hwe | hwe) | hwe <;> omega

/-- Witness for the amended C7 at a concrete input. -/
theorem claim_C7_witness :
    (calculateUniformLayout [⟨"a", "float", ParamValue.scalar 1⟩] 0).offsetMap "a"
      = some 0 ∧
    0 + paramSize ⟨"a", "float", ParamValue.scalar 1⟩ ≤
      (calculateUniformLayout [⟨"a", "float", ParamValue.scalar 1⟩] 0).size := by
  obtain ⟨off, hoff, hle⟩ :=
    (claim_C7_amended_thm [⟨"a", "float", ParamValue.scalar 1⟩] 0 (by decide)).1
      ⟨"a", "float", ParamValue.scalar 1⟩ (List.mem_cons_self _ _)
  have h0 : (calculateUniformLayout [⟨"a", "float", ParamValue.scalar 1⟩] 0).offsetMap "a"
      = some 0 := by decide
  rw [h0] at hoff
  cases hoff
  exact ⟨h0, hle⟩

/-- Claim C8: frame property — for every parameter list, layout and
destination buffer, `writeParamsToBuffer` modifies only the word at
`offsetOf[id] / 4` for each `float` parameter and the three consecutive
words starting there for each `color`/`vec3` parameter; every buffer word
no parameter writes (the fourth word of a vector slot, padding words,
words below the base) is unchanged. -/
theorem claim_C8 (data : List ℚ) (params : List ShaderParam)
    (L : UniformLayout) (w : Nat)
    (h : ∀ p ∈ params, writesWord L p w = false) :
    (writeParamsToBuffer data params L)[w]? = data[w]? :=
  writeParamsToBuffer_frame L params data w h

/-- Witness for C8 at a concrete input: word 7 — the fourth word of the
`color` parameter's 16-byte slot — keeps its previous contents. -/
theorem claim_C8_witness :
    (writeParamsToBuffer [1, 2, 3, 4, 5, 6, 7, 8]
      [⟨"a", "float", ParamValue.scalar 5⟩, ⟨"c", "color", ParamValue.triple 7 8 9⟩]
      (calculateUniformLayout
        [⟨"a", "float", ParamValue.scalar 5⟩, ⟨"c", "color", ParamValue.triple 7 8 9⟩]
        0))[7]? = ([1, 2, 3, 4, 5, 6, 7, 8] : List ℚ)[7]? :=
  claim_C8 [1, 2, 3, 4, 5, 6, 7, 8]
    [⟨"a", "float", ParamValue.scalar 5⟩, ⟨"c", "color", ParamValue.triple 7 8 9⟩]
    (calculateUniformLayout
      [⟨"a", "float", ParamValue.scalar 5⟩, ⟨"c", "color", ParamValue.triple 7 8 9⟩]
      0)
    7 (by decide)

/-- Claim C3 amended: for the empty parameter list with base offset 48,
`calculateUniformLayout` returns total size 48 (the base is rounded up to a
multiple of 16, and 48 already is one, so no padding is added). -/
theorem claim_C3_amended_thm :
    (calculateUniformLayout [] 48).size = 48 := by decide

/-- Claim C4: for a non-empty list of `float` parameters and any base
offset, the scan's offsets are `alignTo 4 base, alignTo 4 base + 4, …`
(strictly increasing, consecutive offsets exactly 4 apart), and the total
size is the smallest multiple of 16 at least `baseOffset + 4 * count`. -/
theorem claim_C4 (params : List ShaderParam) (base : Nat)
    (hne : params ≠ []) (hf : ∀ p ∈ params, p.type = "float") :
    offsetsOf params base =
      (List.range params.length).map (fun i => alignTo 4 base + 4 * i) ∧
    (∀ i j, i < j → j < params.length →
       (offsetsOf params base).getD i 0 < (offsetsOf params base).getD j 0) ∧
    (∀ i, i + 1 < params.length →
       (offsetsOf params base).getD (i + 1) 0 = (offsetsOf params base).getD i 0 + 4) ∧
    isLeastMultGE 16 (base + 4 * params.length)
      (calculateUniformLayout params base).size := by
  have hal : ∀ p ∈ params, paramAlignment p = 4 :=
    fun p hp => paramAlignment_float p (hf p hp)
  have heq := uniform_offsetsOf 4 params hal base
  refine ⟨heq, ?_, ?_, ?_⟩
  · intro i j hij hj
    rw [heq, getD_range_map _ _ i (by omega), getD_range_map _ _ j hj]
    omega
  · intro i hi
    rw [heq, getD_range_map _ _ (i + 1) hi, getD_range_map _ _ i (by omega)]
    ring
  · have hfc := uniform_finalCursor 4 params hal base hne
    rw [calc_size_eq, hfc]
    have hA1 : base ≤ alignTo 4 base := alignTo_ge 4 base
    have hA2 : 4 ∣ alignTo 4 base := alignTo_dvd 4 base (by norm_num)
    refine ⟨alignTo_dvd 16 _ (by norm_num), ?_, ?_⟩
    · have := alignTo_ge 16 (alignTo 4 base + 4 * params.length)
      omega
    · intro y h16 hy
      have h4y : 4 ∣ y := dvd_trans (by norm_num) h16
      have h4n : (4 : Nat) ∣ 4 * params.length := Dvd.intro _ rfl
      have h1 : 4 ∣ y - 4 * params.length := Nat.dvd_sub' h4y h4n
      have h2 : base ≤ y - 4 * params.length := by omega
      have h3 : alignTo 4 base ≤ y - 4 * params.length :=
        alignTo_min 4 base _ (by norm_num) h1 h2
      exact alignTo_min 16 _ y (by norm_num) h16 (by omega)

/-- Witness for C4 at a concrete input. -/
theorem claim_C4_witness :
    isLeastMultGE 16 (5 + 4 * 2)
      (calculateUniformLayout
        [⟨"a", "float", ParamValue.scalar 0⟩, ⟨"b", "float", ParamValue.scalar 1⟩]
        5).size :=
  (claim_C4 [⟨"a", "float", ParamValue.scalar 0⟩, ⟨"b", "float", ParamValue.scalar 1⟩]
    5 (by decide) (by decide)).2.2.2

/-- Claim C5: for a non-empty list of `color`/`vec3` parameters and any base
offset, every offset the scan records is a multiple of 16 and consecutive
offsets differ by exactly 16. -/
theorem claim_C5 (params : List ShaderParam) (base : Nat)
    (_hne : params ≠ []) (hv : ∀ p ∈ params, p.type = "color" ∨ p.type = "vec3") :
    offsetsOf params base =
      (List.range params.length).map (fun i => alignTo 16 base + 16 * i) ∧
    (∀ o ∈ offsetsOf params base, 16 ∣ o) ∧
    (∀ i, i + 1 < params.length →
       (offsetsOf params base).getD (i + 1) 0 = (offsetsOf params base).getD i 0 + 16) := by
  have hal : ∀ p ∈ params, paramAlignment p = 16 :=
    fun p hp => paramAlignment_vec p (hv p hp)
  have heq := uniform_offsetsOf 16 params hal base
  refine ⟨heq, ?_, ?_⟩
  · intro o ho
    rw [heq] at ho
    obtain ⟨i, -, rfl⟩ := List.mem_map.1 ho
    exact Nat.dvd_add (alignTo_dvd 16 base (by norm_num)) (Dvd.intro _ rfl)
  · intro i hi
    rw [heq, getD_range_map _ _ (i + 1) hi, getD_range_map _ _ i (by omega)]
    ring

/-- Witness for C5 at a concrete input. -/
theorem claim_C5_witness :
    offsetsOf [⟨"u", "vec3", ParamValue.triple 0 0 0⟩,
               ⟨"w", "color", ParamValue.triple 1 1 1⟩] 5 =
      (List.range 2).map (fun i => alignTo 16 5 + 16 * i) ∧
    offsetsOf [⟨"u", "vec3", ParamValue.triple 0 0 0⟩,
               ⟨"w", "color", ParamValue.triple 1 1 1⟩] 5 = [16, 32] :=
  ⟨(claim_C5 [⟨"u", "vec3", ParamValue.triple 0 0 0⟩,
      ⟨"w", "color", ParamValue.triple 1 1 1⟩] 5 (by decide) (by decide)).1,
   by decide⟩

/-- Claim C9: duplicate-id behaviour — whenever an id occurs in the list,
the returned offset record maps it to the offset the scan computed for its
LAST occurrence in list order (record assignment overwrites), and every
occurrence still advances the cursor, so the total size covers the sum of
all occurrences' sizes.  In particular `[float "x", float "x"]` at base 0
maps `"x"` to 4 (the second slot) and still reserves both slots
(size 16). -/
theorem claim_C9 (params : List ShaderParam) (base : Nat) (k : String)
    (hk : k ∈ params.map (·.id)) :
    (∃ (i : Nat) (q : ShaderParam) (o : Nat), params[i]? = some q ∧ q.id = k ∧
       (∀ (j : Nat) (q' : ShaderParam), i < j → params[j]? = some q' → q'.id ≠ k) ∧
       (offsetsOf params base)[i]? = some o ∧
       (calculateUniformLayout params base).offsetMap k = some o) ∧
    base + (params.map paramSize).sum ≤ (calculateUniformLayout params base).size ∧
    ((calculateUniformLayout
        [⟨"x", "float", .scalar 0⟩, ⟨"x", "float", .scalar 1⟩] 0).offsetMap "x"
        = some 4 ∧
     (calculateUniformLayout
        [⟨"x", "float", .scalar 0⟩, ⟨"x", "float", .scalar 1⟩] 0).size = 16) := by
  refine ⟨?_, ?_, by decide, by decide⟩
  · obtain ⟨i, q, o, h1, h2, h3, h4, h5⟩ :=
      lastOffsetOf_last_occurrence params base k hk
    refine ⟨i, q, o, h1, h2, h3, h4, ?_⟩
    rw [calc_offsetMap_eq]
    exact h5
  · have h1 := finalCursor_ge_sum params base
    have h2 : finalCursor params base ≤ (calculateUniformLayout params base).size := by
      rw [calc_size_eq]
      exact alignTo_ge _ _
    omega

/-- Witness for C9 at a concrete input. -/
theorem claim_C9_witness :
    (calculateUniformLayout
       [⟨"x", "float", ParamValue.scalar 0⟩, ⟨"x", "float", ParamValue.scalar 1⟩]
       0).offsetMap "x" = some 4 ∧
    (calculateUniformLayout
       [⟨"x", "float", ParamValue.scalar 0⟩, ⟨"x", "float", ParamValue.scalar 1⟩]
       0).size = 16 :=
  (claim_C9 [⟨"x", "float", ParamValue.scalar 0⟩, ⟨"x", "float", ParamValue.scalar 1⟩]
    0 "x" (by decide)).2.2

/-- Claim C10: a parameter whose type tag is none of `float` / `color` /
`vec3` is laid out exactly like a `float` (alignment 4, size 4, a reserved
slot and an offset-record entry), while `writeParamsToBuffer` writes
nothing for it: retyping unknown tags to `float` leaves the layout
unchanged, and dropping unknown-tag parameters leaves the serialized
buffer unchanged.  In particular a lone `"int2"` parameter gets offset 0
and total size 16 while the buffer is untouched. -/
theorem claim_C10 (params : List ShaderParam) (base : Nat) (data : List ℚ) :
    (∀ p : ShaderParam, isKnownType p = false →
       paramAlignment p = 4 ∧ paramSize p = 4) ∧
    (calculateUniformLayout (params.map retypeUnknown) base).size
      = (calculateUniformLayout params base).size ∧
    (∀ k, (calculateUniformLayout (params.map retypeUnknown) base).offsetMap k
      = (calculateUniformLayout params base).offsetMap k) ∧
    (∀ L : UniformLayout, writeParamsToBuffer data params L
      = writeParamsToBuffer data (params.filter isKnownType) L) ∧
    ((calculateUniformLayout [⟨"u", "int2", .scalar 5⟩] 0).offsetMap "u" = some 0 ∧
     (calculateUniformLayout [⟨"u", "int2", .scalar 5⟩] 0).size = 16 ∧
     writeParamsToBuffer [1, 2, 3, 4] [⟨"u", "int2", .scalar 5⟩]
       (calculateUniformLayout [⟨"u", "int2", .scalar 5⟩] 0) = [1, 2, 3, 4]) := by
  refine ⟨?_, ?_, ?_, fun L => writeParamsToBuffer_filter L params data,
    by decide, by decide, by decide⟩
  · intro p h
    simp only [isKnownType, Bool.or_eq_false_iff, beq_eq_false_iff_ne] at h
    have h2 : ¬(p.type = "color" ∨ p.type = "vec3") := by
      rintro (hc | hc)
      exacts [h.1.2 hc, h.2 hc]
    exact ⟨if_neg h2, if_neg h2⟩
  · unfold calculateUniformLayout
    rw [foldl_layoutStep_retype]
  · intro k
    unfold calculateUniformLayout
    rw [foldl_layoutStep_retype]

/-- Witness for C10 at a concrete input. -/
theorem claim_C10_witness :
    paramAlignment ⟨"u", "int2", ParamValue.scalar 5⟩ = 4 ∧
    paramSize ⟨"u", "int2", ParamValue.scalar 5⟩ = 4 :=
  (claim_C10 [] 0 []).1 ⟨"u", "int2", ParamValue.scalar 5⟩ (by decide)

end Heroyk
